import Mathlib

/-!
Shallow embedding of the Reddit movie-post collection pipeline
(collect_reddit.py): paginated fetching, per-post relevance filtering,
deduplication/aggregation into a sorted dataset, and coverage summaries.

Text processed character-wise (titles, bodies, tokens) is modelled as
List Char; opaque identifiers (movie keys, post ids, subreddit names,
permalinks) are modelled as String.  Machine integers are Int.  The
external language detector is a parameter returning Option (List Char),
where none models the detector raising an exception.  Character-class
predicates (word characters, whitespace, lowercasing) model the Python
semantics over the alphabet the program actually manipulates.
-/

/-- Minimum text length before statistical language detection is used
(MIN_TEXT_LEN in the source). -/
def MIN_TEXT_LEN : Nat := 15

/-- Lowercasing of a text, modelling str.lower. -/
def toLowerL (s : List Char) : List Char := s.map Char.toLower

/-- Whitespace test, modelling the Python whitespace class. -/
def isSpaceB (c : Char) : Bool := c.isWhitespace

/-- Leading/trailing-whitespace removal, modelling str.strip. -/
def strip (s : List Char) : List Char :=
  ((s.dropWhile isSpaceB).reverse.dropWhile isSpaceB).reverse

/-- Substring containment (needle occurs contiguously in haystack),
modelling the Python expression tok in text. -/
def containsSub : List Char → List Char → Bool
  | needle, [] => needle.isEmpty
  | needle, c :: cs => needle.isPrefixOf (c :: cs) || containsSub needle cs

/-- Word character for the word-boundary assertions of the source's
regular expressions. -/
def isWordChar (c : Char) : Bool := c.isAlphanum || c == '_'

/-- Word boundary to the left of a match position, given the preceding
character (none at the start of the text). -/
def boundaryBefore : Option Char → Bool
  | none => true
  | some p => !isWordChar p

/-- Word boundary immediately after a match, given the remaining text. -/
def boundaryAfter : List Char → Bool
  | [] => true
  | c :: _ => !isWordChar c

/-- Literal match of a word at the head of the text, returning the
remaining text on success. -/
def tryWord (w s : List Char) : Option (List Char) :=
  if w.isPrefixOf s then some (s.drop w.length) else none

/-- Match of one of several literal alternatives at the head of the
text, followed by a word boundary. -/
def wordAltsAt (ws : List (List Char)) (s : List Char) : Bool :=
  ws.any fun w =>
    match tryWord w s with
    | some rest => boundaryAfter rest
    | none => false

/-- Scan of a text for a match of matchAt at some position whose left
context is a word boundary (the regex-search loop). -/
def searchGo (matchAt : List Char → Bool) : Option Char → List Char → Bool
  | _, [] => false
  | prev, c :: cs =>
    (boundaryBefore prev && matchAt (c :: cs)) || searchGo matchAt (some c) cs

/-- Plain-word alternatives of the film-cue regular expression, in
source order. -/
def cueWords : List (List Char) :=
  ["film".data, "movie".data, "trailer".data, "review".data, "director".data,
   "cast".data, "cinema".data, "screening".data, "premiere".data]

/-- Match of the box-office alternative: the word box, any amount of
whitespace, then the word office. -/
def tryBoxOffice (s : List Char) : Option (List Char) :=
  match tryWord "box".data s with
  | some rest => tryWord "office".data (rest.dropWhile isSpaceB)
  | none => none

/-- Match of some film-cue alternative at the head of the text. -/
def cueMatchAt (s : List Char) : Bool :=
  wordAltsAt cueWords s ||
    (match tryBoxOffice s with
     | some rest => boundaryAfter rest
     | none => false)

/-- Film-cue test on a lowercased title (has_film_cue in the source). -/
def has_film_cue (lower : List Char) : Bool := searchGo cueMatchAt none lower

/-- Token test on a lowercased title (title_has_token in the source). -/
def title_has_token (title_lower : List Char) (tokens : List (List Char)) : Bool :=
  tokens.any fun tok => containsSub (toLowerL tok) title_lower

/-- Negative-keyword exclusion (should_exclude_by_negatives in the
source); the optional regular expression is modelled as an optional
matcher on the lowercased title. -/
def should_exclude_by_negatives (title_lower : List Char)
    (negatives_regex : Option (List Char → Bool)) (film_cue_present : Bool) : Bool :=
  match negatives_regex with
  | none => false
  | some negMatcher => if negMatcher title_lower then !film_cue_present else false

/-- Count of ASCII characters of a text. -/
def asciiCount (txt : List Char) : Nat := (txt.filter fun c => c.toNat < 128).length

/-- ASCII-fraction heuristic of the source: the fraction of ASCII
characters exceeds 0.9, stated without division. -/
def asciiHeuristic (txt : List Char) : Bool :=
  decide (9 * max 1 txt.length < 10 * asciiCount txt)

/-- Language check (is_english in the source).  detectLang models the
external detector; none models it raising, in which case the check
falls through to the ASCII heuristic, as does text shorter than
MIN_TEXT_LEN after stripping. -/
def is_english (detectLang : List Char → Option (List Char)) (text : List Char) : Bool :=
  if text.isEmpty then false
  else
    let txt := strip text
    if MIN_TEXT_LEN ≤ txt.length then
      match detectLang txt with
      | some lang => lang == "en".data
      | none => asciiHeuristic txt
    else asciiHeuristic txt

/-- Raw record returned by the source API; every field is optional,
modelling dict.get. -/
structure RawPost where
  id : Option String
  subreddit : Option String
  created_utc : Option Int
  title : Option (List Char)
  selftext : Option (List Char)
  permalink : Option String
deriving Repr, DecidableEq

/-- Topic configuration (one MOVIES entry in the source). -/
structure Topic where
  query : String
  start_utc : Int
  end_utc : Option Int
  title_tokens : List (List Char)
  negative_title_regex : Option (List Char → Bool)

/-- Normalized output row. -/
structure Row where
  movie : String
  subreddit : String
  id : String
  created_utc : Int
  title : List Char
  text : List Char
  permalink : String
  url : String
deriving Repr, DecidableEq

/-- Rejection test of the topical-relevance step of build_rows: no
token in the title, and not (film cue in the title and a token in the
body). -/
def relevanceReject (cfg : Topic) (title_lower selftext : List Char) : Bool :=
  !title_has_token title_lower cfg.title_tokens &&
    !(has_film_cue title_lower &&
      cfg.title_tokens.any fun tok => containsSub (toLowerL tok) (toLowerL selftext))

/-- Text submitted to the language check: the title alone when the body
is shorter than MIN_TEXT_LEN, otherwise title and body concatenated
with a space and stripped. -/
def langText (title selftext : List Char) : List Char :=
  if selftext.length < MIN_TEXT_LEN then title else strip (title ++ ' ' :: selftext)

/-- Steps of build_rows after topical relevance: negative-keyword
override, language check, and row emission. -/
def decideAfterRelevance (movie_key : String) (cfg : Topic)
    (detectLang : List Char → Option (List Char)) (p : RawPost)
    (created_utc : Int) (title selftext : List Char) : Option Row :=
  let title_lower := toLowerL title
  let film_cue := has_film_cue title_lower
  if should_exclude_by_negatives title_lower cfg.negative_title_regex film_cue then none
  else if !is_english detectLang (langText title selftext) then none
  else some {
    movie := movie_key
    subreddit := p.subreddit.getD ""
    id := p.id.getD ""
    created_utc := created_utc
    title := title
    text := selftext
    permalink := p.permalink.getD ""
    url := if (p.permalink.getD "").isEmpty then ""
           else "https://www.reddit.com" ++ p.permalink.getD "" }

/-- Per-post decision of build_rows: time boundary, topical relevance,
then the remaining steps. -/
def decidePost (movie_key : String) (cfg : Topic)
    (detectLang : List Char → Option (List Char)) (p : RawPost) : Option Row :=
  let created_utc := p.created_utc.getD 0
  if created_utc < cfg.start_utc then none
  else
    let title := strip (p.title.getD [])
    let selftext := strip (p.selftext.getD [])
    if relevanceReject cfg (toLowerL title) selftext then none
    else decideAfterRelevance movie_key cfg detectLang p created_utc title selftext

/-- Filtering of a topic's raw posts into rows (build_rows). -/
def build_rows (movie_key : String) (cfg : Topic)
    (detectLang : List Char → Option (List Char)) (raw_posts : List RawPost) : List Row :=
  raw_posts.filterMap (decidePost movie_key cfg detectLang)

/-- One page of search results: the child records and the next-page
cursor. -/
structure Page where
  children : List RawPost
  after : Option String
deriving Repr, DecidableEq

/-- Outcome of one page request: a transport or parse failure (any
exception in the request, status check, or body parse), or a page. -/
inductive PageResult where
  | failure
  | success (page : Page)
deriving Repr, DecidableEq

/-- Falsiness of the next-page cursor (Python: if not after). -/
def afterFalsy : Option String → Bool
  | none => true
  | some s => s.isEmpty

/-- Minimum created_utc among a page's records, each defaulting to 0. -/
def minCreated (children : List RawPost) : Int :=
  match children.map fun c => c.created_utc.getD 0 with
  | [] => 0
  | t :: ts => ts.foldl min t

/-- Paging loop of fetch_subreddit_posts over the source's successive
responses: stop on failure, on an empty page, on a falsy cursor, or
once the oldest record of the page is older than start_utc. -/
def fetchGo (start_utc : Int) (acc : List RawPost) : List PageResult → List RawPost
  | [] => acc
  | .failure :: _ => acc
  | .success pg :: rest =>
    if pg.children.isEmpty then acc
    else
      let acc2 := acc ++ pg.children
      if afterFalsy pg.after then acc2
      else if !pg.children.isEmpty && decide (minCreated pg.children < start_utc) then acc2
      else fetchGo start_utc acc2 rest

/-- Fetch of one (source-community, query) pair, given the trace of
responses the source would return to the successive page requests. -/
def fetch_subreddit_posts (start_utc : Int) (responses : List PageResult) : List RawPost :=
  fetchGo start_utc [] responses

/-- Deduplication key of a raw post (Python: p.get with id). -/
def keyOf (p : RawPost) : String := p.id.getD ""

/-- Insertion into an insertion-ordered dictionary keyed by keyOf:
replacement in place when the key is present, append otherwise. -/
def dictInsert (d : List RawPost) (p : RawPost) : List RawPost :=
  if d.any fun q => keyOf q == keyOf p then
    d.map fun q => if keyOf q == keyOf p then p else q
  else d ++ [p]

/-- Within-topic deduplication of collect_for_movie: posts with a falsy
id are dropped, then posts are folded into a dict keyed by id, so the
last-seen post of each id wins. -/
def dedupById (all_posts : List RawPost) : List RawPost :=
  (all_posts.filter fun p => !(keyOf p).isEmpty).foldl dictInsert []

/-- Collection for one topic: fetch each configured source community,
concatenate, deduplicate by id (collect_for_movie). -/
def collect_for_movie (cfg : Topic) (responsesFor : List (List PageResult)) : List RawPost :=
  dedupById ((responsesFor.map fun rs => fetch_subreddit_posts cfg.start_utc rs).flatten)

/-- Deduplication key of a dataset row. -/
def rowKey (r : Row) : String × String := (r.movie, r.id)

/-- Keep-first deduplication on (movie, id), modelling
drop_duplicates(subset=[movie, id]). -/
def dropDupsGo : List Row → List (String × String) → List Row
  | [], _ => []
  | r :: rs, seen =>
    if rowKey r ∈ seen then dropDupsGo rs seen
    else r :: dropDupsGo rs (rowKey r :: seen)

/-- Cross-topic deduplication of main. -/
def drop_duplicates_movie_id (rows : List Row) : List Row := dropDupsGo rows []

/-- Strict character comparison by code point. -/
def charLt (a b : Char) : Bool := decide (a < b)

/-- Strict lexicographic comparison of character lists, modelling the
Python string comparison used when sorting movie keys. -/
def listLt : List Char → List Char → Bool
  | [], [] => false
  | [], _ :: _ => true
  | _ :: _, [] => false
  | a :: as, b :: bs => charLt a b || (a == b && listLt as bs)

/-- Strict lexicographic comparison of strings. -/
def strLt (a b : String) : Bool := listLt a.data b.data

/-- Sort key of main's final sort: movie ascending, created_utc
descending. -/
def rowLe (a b : Row) : Bool :=
  strLt a.movie b.movie || (a.movie == b.movie && decide (b.created_utc ≤ a.created_utc))

/-- Final dataset of main: deduplicate on (movie, id), then stable-sort
by (movie ascending, created_utc descending); the multi-column sort of
the source is stable with respect to the incoming row order. -/
def mainDataset (all_rows : List Row) : List Row :=
  (drop_duplicates_movie_id all_rows).mergeSort rowLe

/-- Rows produced by a whole run, in fetch order: for each topic, the
deduplicated raw posts are filtered into rows, and the per-topic row
lists are concatenated (the all_rows accumulation of main). -/
def runAllRows (topics : List (String × Topic))
    (detectLang : List Char → Option (List Char))
    (rawFor : String → List RawPost) : List Row :=
  (topics.map fun t => build_rows t.1 t.2 detectLang (dedupById (rawFor t.1))).flatten

/-- Final dataset of a whole run. -/
def runDataset (topics : List (String × Topic))
    (detectLang : List Char → Option (List Char))
    (rawFor : String → List RawPost) : List Row :=
  mainDataset (runAllRows topics detectLang rawFor)

/-- Whole days elapsed since a topic's start, floored at one
(max(1, (now - start) // 86400) with Python floor division). -/
def days_since_start (now_sec start_utc : Int) : Int :=
  max 1 ((now_sec - start_utc).fdiv 86400)

/-- One row of the per-topic coverage summary. -/
structure SummaryEntry where
  movie : String
  count : Nat
  days : Int
  rate : ℚ
deriving Repr, DecidableEq

/-- Non-strict string comparison for the groupby key ordering. -/
def strLe (a b : String) : Bool := strLt a b || a == b

/-- Distinct movie keys of a dataset in ascending order (the group keys
of groupby). -/
def distinctMovies (ds : List Row) : List String :=
  ((ds.map Row.movie).foldl (fun acc m => if m ∈ acc then acc else acc ++ [m]) []).mergeSort strLe

/-- Rows of one movie's group. -/
def groupRows (ds : List Row) (k : String) : List Row := ds.filter fun r => r.movie == k

/-- Group aggregate of the per-row days_since_start column by max. -/
def groupDays (now_sec : Int) (starts : String → Int) (grp : List Row) : Int :=
  match grp.map fun r => days_since_start now_sec (starts r.movie) with
  | [] => 0
  | d :: rest => rest.foldl max d

/-- Per-topic coverage summary (summarize_rates): empty on an empty
dataset, otherwise one entry per movie group with the row count, the
days-since-start aggregate, and their quotient. -/
def summarize_rates (starts : String → Int) (now_sec : Int) (ds : List Row) : List SummaryEntry :=
  if ds.isEmpty then []
  else (distinctMovies ds).map fun k =>
    let grp := groupRows ds k
    let days := groupDays now_sec starts grp
    { movie := k, count := grp.length, days := days, rate := (grp.length : ℚ) / (days : ℚ) }

/-- Negative-title alternatives of the barbie topic's regular
expression, in source order. -/
def barbieNegWords : List (List Char) :=
  ["doll".data, "toy".data, "birthday".data, "ken doll".data, "barbiecore".data]

/-- Matcher of the barbie topic's negative-title regular expression. -/
def barbieNegMatch (s : List Char) : Bool := searchGo (wordAltsAt barbieNegWords) none s

/-- Topic entry oppenheimer of the registry. -/
def oppenheimerTopic : Topic :=
  { query := "(oppenheimer) (film OR movie OR trailer OR review OR \"box office\")"
    start_utc := 1688083200, end_utc := none
    title_tokens := ["oppenheimer".data]
    negative_title_regex := none }

/-- Topic entry barbie of the registry; the only one with a negative
title pattern. -/
def barbieTopic : Topic :=
  { query := "(barbie) (film OR movie OR trailer OR review OR \"box office\")"
    start_utc := 1688083200, end_utc := none
    title_tokens := ["barbie".data]
    negative_title_regex := some barbieNegMatch }

/-- Topic entry mi7 of the registry. -/
def mi7Topic : Topic :=
  { query := "(\"mission impossible\" OR \"dead reckoning\" OR \"mi7\") (film OR movie OR trailer OR review OR \"box office\")"
    start_utc := 1688083200, end_utc := none
    title_tokens := ["mission impossible".data, "dead reckoning".data, "mi7".data]
    negative_title_regex := none }

/-- Topic entry sound_of_freedom of the registry. -/
def soundOfFreedomTopic : Topic :=
  { query := "(\"sound of freedom\") (film OR movie OR trailer OR review OR \"box office\")"
    start_utc := 1688083200, end_utc := none
    title_tokens := ["sound of freedom".data]
    negative_title_regex := none }

/-- Topic entry indiana_jones of the registry. -/
def indianaJonesTopic : Topic :=
  { query := "(\"dial of destiny\" OR \"indiana jones\") (film OR movie OR trailer OR review OR \"box office\")"
    start_utc := 1688083200, end_utc := none
    title_tokens := ["dial of destiny".data, "indiana jones".data]
    negative_title_regex := none }

/-- Topic registry of the source (the MOVIES mapping). -/
def MOVIES : List (String × Topic) :=
  [("oppenheimer", oppenheimerTopic),
   ("barbie", barbieTopic),
   ("mi7", mi7Topic),
   ("sound_of_freedom", soundOfFreedomTopic),
   ("indiana_jones", indianaJonesTopic)]

/-- Continuation condition of the paging loop: a page that triggers no
stop condition. -/
def pageContinues (start_utc : Int) (pg : Page) : Prop :=
  pg.children ≠ [] ∧ afterFalsy pg.after = false ∧ ¬(minCreated pg.children < start_utc)

instance (start_utc : Int) (pg : Page) : Decidable (pageContinues start_utc pg) := by
  unfold pageContinues; infer_instance

/-- Concrete raw post created before the topic start. -/
def postTooEarly : RawPost :=
  { id := some "a1", subreddit := some "movies", created_utc := some 5,
    title := some "Oppenheimer review".data, selftext := some [],
    permalink := some "/r/movies/a1" }

/-- Concrete raw post whose title matches the barbie negative pattern
and holds no film cue. -/
def postNegNoCue : RawPost :=
  { id := some "b1", subreddit := some "movies", created_utc := some 1688083300,
    title := some "Ken doll collection".data, selftext := some [],
    permalink := some "/r/movies/b1" }

/-- Concrete raw post whose title matches the barbie negative pattern
and also holds a film cue, and otherwise passes every check. -/
def postNegCue : RawPost :=
  { id := some "b2", subreddit := some "movies", created_utc := some 1688083300,
    title := some "Barbie doll movie review".data, selftext := some [],
    permalink := some "/r/movies/b2" }

/-- Concrete raw post for the paging fixtures. -/
def rawFetched : RawPost :=
  { id := some "f1", subreddit := some "movies", created_utc := some 100,
    title := some "t".data, selftext := some [], permalink := none }

/-- Concrete page that triggers no stop condition of the paging loop. -/
def pageGood : Page := { children := [rawFetched], after := some "t3_abc" }

/-- Concrete dataset row of the oppenheimer topic. -/
def rowOppen : Row :=
  { movie := "oppenheimer", subreddit := "movies", id := "x1",
    created_utc := 1688083200, title := [], text := [], permalink := "", url := "" }

/-- Concrete dataset of 25 oppenheimer rows. -/
def dsRate : List Row := List.replicate 25 rowOppen

/-- Concrete clock value ten days after the registry start time. -/
def nowRate : Int := 1688083200 + 10 * 86400

/-- Start-time lookup of the rate fixture. -/
def startsRate : String → Int := fun _ => 1688083200

/-- Concrete raw posts with one duplicated id and two falsy ids. -/
def postsDup : List RawPost :=
  [{ id := some "x", subreddit := some "movies", created_utc := some 10,
     title := some "first".data, selftext := some [], permalink := none },
   { id := none, subreddit := some "flicks", created_utc := some 11,
     title := some "noid".data, selftext := some [], permalink := none },
   { id := some "", subreddit := some "flicks", created_utc := some 12,
     title := some "emptyid".data, selftext := some [], permalink := none },
   { id := some "x", subreddit := some "truefilm", created_utc := some 13,
     title := some "second".data, selftext := some [], permalink := none }]

/-! Order lemmas for the sort key. -/

theorem listLt_trans : ∀ x y z : List Char,
    listLt x y = true → listLt y z = true → listLt x z = true := by
  intro x
  induction x with
  | nil =>
    intro y z h1 h2
    cases y with
    | nil => simp [listLt] at h1
    | cons b bs =>
      cases z with
      | nil => simp [listLt] at h2
      | cons c cs => simp [listLt]
  | cons a as ih =>
    intro y z h1 h2
    cases y with
    | nil => simp [listLt] at h1
    | cons b bs =>
      cases z with
      | nil => simp [listLt] at h2
      | cons c cs =>
        simp only [listLt, charLt, Bool.or_eq_true, Bool.and_eq_true,
          decide_eq_true_eq, beq_iff_eq] at h1 h2 ⊢
        rcases h1 with h1 | ⟨rfl, h1⟩
        · rcases h2 with h2 | ⟨rfl, h2⟩
          · exact Or.inl (lt_trans h1 h2)
          · exact Or.inl h1
        · rcases h2 with h2 | ⟨rfl, h2⟩
          · exact Or.inl h2
          · exact Or.inr ⟨rfl, ih _ _ h1 h2⟩

theorem listLt_connex : ∀ x y : List Char,
    listLt x y = true ∨ x = y ∨ listLt y x = true := by
  intro x
  induction x with
  | nil =>
    intro y
    cases y with
    | nil => exact Or.inr (Or.inl rfl)
    | cons b bs => exact Or.inl (by simp [listLt])
  | cons a as ih =>
    intro y
    cases y with
    | nil => exact Or.inr (Or.inr (by simp [listLt]))
    | cons b bs =>
      rcases lt_trichotomy a b with h | rfl | h
      · exact Or.inl (by simp [listLt, charLt, h])
      · rcases ih bs with h' | rfl | h'
        · exact Or.inl (by simp [listLt, charLt, h'])
        · exact Or.inr (Or.inl rfl)
        · exact Or.inr (Or.inr (by simp [listLt, charLt, h']))
      · exact Or.inr (Or.inr (by simp [listLt, charLt, h]))

theorem rowLe_trans : ∀ a b c : Row, rowLe a b = true → rowLe b c = true → rowLe a c = true := by
  intro a b c h1 h2
  simp only [rowLe, strLt, Bool.or_eq_true, Bool.and_eq_true,
    decide_eq_true_eq, beq_iff_eq] at h1 h2 ⊢
  rcases h1 with h1 | ⟨he1, hc1⟩
  · rcases h2 with h2 | ⟨he2, hc2⟩
    · exact Or.inl (listLt_trans _ _ _ h1 h2)
    · exact Or.inl (he2 ▸ h1)
  · rcases h2 with h2 | ⟨he2, hc2⟩
    · exact Or.inl (he1 ▸ h2)
    · exact Or.inr ⟨he1.trans he2, le_trans hc2 hc1⟩

theorem rowLe_total : ∀ a b : Row, (rowLe a b || rowLe b a) = true := by
  intro a b
  simp only [rowLe, strLt, Bool.or_eq_true, Bool.and_eq_true,
    decide_eq_true_eq, beq_iff_eq]
  rcases listLt_connex a.movie.data b.movie.data with h | h | h
  · exact Or.inl (Or.inl h)
  · have he : a.movie = b.movie := String.ext h
    rcases le_total a.created_utc b.created_utc with hc | hc
    · exact Or.inr (Or.inr ⟨he.symm, hc⟩)
    · exact Or.inl (Or.inr ⟨he, hc⟩)
  · exact Or.inr (Or.inl h)

theorem rowLe_of_eq_key {a b : Row} (hm : a.movie = b.movie)
    (hc : a.created_utc = b.created_utc) : rowLe a b = true := by
  simp [rowLe, hm, hc]

theorem rowLe_cases {a b : Row} (h : rowLe a b = true) :
    strLt a.movie b.movie = true ∨ (a.movie = b.movie ∧ b.created_utc ≤ a.created_utc) := by
  simpa only [rowLe, Bool.or_eq_true, Bool.and_eq_true,
    decide_eq_true_eq, beq_iff_eq] using h

/-! Lemmas about the keep-first deduplication of main. -/

theorem dropDupsGo_key_not_mem : ∀ (rows : List Row) (seen : List (String × String))
    (r : Row), r ∈ dropDupsGo rows seen → rowKey r ∉ seen := by
  intro rows
  induction rows with
  | nil => intro seen r h; simp [dropDupsGo] at h
  | cons x rs ih =>
    intro seen r h
    by_cases hx : rowKey x ∈ seen
    · rw [dropDupsGo, if_pos hx] at h
      exact ih seen r h
    · rw [dropDupsGo, if_neg hx] at h
      rcases List.mem_cons.mp h with rfl | h
      · exact hx
      · intro hmem
        exact ih _ r h (List.mem_cons_of_mem _ hmem)

theorem dropDupsGo_nodup_keys : ∀ (rows : List Row) (seen : List (String × String)),
    ((dropDupsGo rows seen).map rowKey).Nodup := by
  intro rows
  induction rows with
  | nil => intro seen; simp [dropDupsGo]
  | cons x rs ih =>
    intro seen
    by_cases hx : rowKey x ∈ seen
    · rw [dropDupsGo, if_pos hx]; exact ih seen
    · rw [dropDupsGo, if_neg hx]
      rw [List.map_cons, List.nodup_cons]
      refine ⟨?_, ih _⟩
      intro hmem
      rcases List.mem_map.mp hmem with ⟨r, hr, hkey⟩
      exact dropDupsGo_key_not_mem rs _ r hr (hkey ▸ List.mem_cons_self _ _)

theorem mainDataset_pairwise_key (all_rows : List Row) :
    (mainDataset all_rows).Pairwise fun a b => ¬(a.movie = b.movie ∧ a.id = b.id) := by
  have hnd : ((drop_duplicates_movie_id all_rows).map rowKey).Nodup :=
    dropDupsGo_nodup_keys all_rows []
  have hpw : (drop_duplicates_movie_id all_rows).Pairwise fun a b => rowKey a ≠ rowKey b :=
    List.pairwise_map.mp hnd
  have hperm := List.mergeSort_perm (drop_duplicates_movie_id all_rows) rowLe
  have hsymm : ∀ {a b : Row}, rowKey a ≠ rowKey b → rowKey b ≠ rowKey a :=
    fun h => fun he => h he.symm
  have : (mainDataset all_rows).Pairwise fun a b => rowKey a ≠ rowKey b :=
    (List.Perm.pairwise_iff hsymm hperm).mpr hpw
  refine this.imp ?_
  intro a b hne hc
  exact hne (by simp [rowKey, hc.1, hc.2])

theorem mainDataset_sorted (all_rows : List Row) :
    (mainDataset all_rows).Pairwise fun a b => rowLe a b = true :=
  List.sorted_mergeSort rowLe_trans rowLe_total _

/-- C1: the final Dataset of a run has no two rows sharing (movie, id),
for every input (duplicates included), and every pair of consecutive
rows is ordered: the earlier movie sorts strictly before the later, or
the movies agree and the earlier created_utc is at least the later. -/
theorem C1_dataset_unique_keys_and_sorted (topics : List (String × Topic))
    (detectLang : List Char → Option (List Char)) (rawFor : String → List RawPost) :
    (runDataset topics detectLang rawFor).Pairwise
      (fun a b => ¬(a.movie = b.movie ∧ a.id = b.id)) ∧
    (runDataset topics detectLang rawFor).Chain'
      (fun a b => strLt a.movie b.movie = true ∨
        (a.movie = b.movie ∧ b.created_utc ≤ a.created_utc)) := by
  constructor
  · exact mainDataset_pairwise_key _
  · exact ((mainDataset_sorted _).imp fun h => rowLe_cases h).chain'

/-! Stability of the final sort. -/

theorem mergeSort_filter_stable (l : List Row) (p : Row → Bool)
    (hp : (l.filter p).Pairwise fun a b => rowLe a b = true) :
    (l.mergeSort rowLe).filter p = l.filter p := by
  have hself : (l.filter p).filter p = l.filter p :=
    List.filter_eq_self.mpr fun a ha => List.of_mem_filter ha
  have hsub : (l.filter p).Sublist (l.mergeSort rowLe) :=
    List.sublist_mergeSort rowLe_trans rowLe_total hp (List.filter_sublist l)
  have h1 : (l.filter p).Sublist ((l.mergeSort rowLe).filter p) := by
    have := hsub.filter p
    rwa [hself] at this
  have hlen : ((l.mergeSort rowLe).filter p).length = (l.filter p).length :=
    ((List.mergeSort_perm l rowLe).filter p).length_eq
  exact (h1.eq_of_length hlen.symm).symm

theorem filter_key_pairwise (l : List Row) (k : String) (t : Int) :
    (l.filter fun r => r.movie == k && r.created_utc == t).Pairwise
      fun a b => rowLe a b = true := by
  apply List.pairwise_of_forall_mem_list
  intro a ha b hb
  have hpa := List.of_mem_filter ha
  have hpb := List.of_mem_filter hb
  simp only [Bool.and_eq_true, beq_iff_eq] at hpa hpb
  exact rowLe_of_eq_key (hpa.1.trans hpb.1.symm) (hpa.2.trans hpb.2.symm)

/-- C2: for a fixed set of raw posts and topic configuration, the run
produces one fixed Dataset (the pipeline is a function of its inputs),
and the final sort is stable: the rows sharing a sort key (movie,
created_utc) appear in the Dataset in exactly their pre-sort order,
namely their order in the deduplicated fetch-order row list. -/
theorem C2_deterministic_stable_sort (topics : List (String × Topic))
    (detectLang : List Char → Option (List Char)) (rawFor : String → List RawPost)
    (k : String) (t : Int) :
    runDataset topics detectLang rawFor = runDataset topics detectLang rawFor ∧
    (runDataset topics detectLang rawFor).filter
        (fun r => r.movie == k && r.created_utc == t) =
      (drop_duplicates_movie_id (runAllRows topics detectLang rawFor)).filter
        (fun r => r.movie == k && r.created_utc == t) := by
  refine ⟨rfl, ?_⟩
  exact mergeSort_filter_stable _ _ (filter_key_pairwise _ k t)

/-- C3: every raw post created strictly before the topic's start time
is rejected by the filter, whatever its other fields hold. -/
theorem C3_boundary_reject (movie_key : String) (cfg : Topic)
    (detectLang : List Char → Option (List Char)) (p : RawPost)
    (h : p.created_utc.getD 0 < cfg.start_utc) :
    decidePost movie_key cfg detectLang p = none := by
  unfold decidePost
  rw [if_pos h]

theorem C3_boundary_reject_witness :
    postTooEarly.created_utc.getD 0 < oppenheimerTopic.start_utc ∧
    decidePost "oppenheimer" oppenheimerTopic (fun _ => none) postTooEarly = none :=
  ⟨by decide, C3_boundary_reject _ _ _ _ (by decide)⟩

/-- C4: for a post that passes the time boundary, the topical-relevance
step keeps the post (handing it to the remaining steps) exactly when a
title token occurs in the title, or the title holds a film cue and the
body holds a title token; in every other case the post is rejected at
this step. -/
theorem C4_relevance_step (movie_key : String) (cfg : Topic)
    (detectLang : List Char → Option (List Char)) (p : RawPost)
    (h : ¬(p.created_utc.getD 0 < cfg.start_utc)) :
    decidePost movie_key cfg detectLang p =
      if title_has_token (toLowerL (strip (p.title.getD []))) cfg.title_tokens
          || (has_film_cue (toLowerL (strip (p.title.getD []))) &&
              cfg.title_tokens.any fun tok =>
                containsSub (toLowerL tok) (toLowerL (strip (p.selftext.getD []))))
      then decideAfterRelevance movie_key cfg detectLang p (p.created_utc.getD 0)
            (strip (p.title.getD [])) (strip (p.selftext.getD []))
      else none := by
  unfold decidePost relevanceReject
  rw [if_neg h]
  cases hA : title_has_token (toLowerL (strip (p.title.getD []))) cfg.title_tokens <;>
    cases hB : (has_film_cue (toLowerL (strip (p.title.getD []))) &&
        cfg.title_tokens.any fun tok =>
          containsSub (toLowerL tok) (toLowerL (strip (p.selftext.getD [])))) <;>
    simp [hA, hB]

theorem C4_relevance_step_witness :
    ¬(postNegCue.created_utc.getD 0 < barbieTopic.start_utc) ∧
    decidePost "barbie" barbieTopic (fun _ => none) postNegCue =
      (if title_has_token (toLowerL (strip (postNegCue.title.getD []))) barbieTopic.title_tokens
          || (has_film_cue (toLowerL (strip (postNegCue.title.getD []))) &&
              barbieTopic.title_tokens.any fun tok =>
                containsSub (toLowerL tok) (toLowerL (strip (postNegCue.selftext.getD []))))
       then decideAfterRelevance "barbie" barbieTopic (fun _ => none) postNegCue
              (postNegCue.created_utc.getD 0)
              (strip (postNegCue.title.getD [])) (strip (postNegCue.selftext.getD []))
       else none) :=
  ⟨by decide, C4_relevance_step _ _ _ _ (by decide)⟩

/-- C5: for a post whose title matches the topic's negative pattern, no
film cue in the title forces rejection, while a film cue overrides the
negative match, so the post is accepted whenever boundary, relevance
and language otherwise pass; topics without a negative pattern never
exclude a post at this step. -/
theorem C5_negative_override (movie_key : String) (cfg : Topic)
    (detectLang : List Char → Option (List Char)) (p : RawPost) :
    (∀ m, cfg.negative_title_regex = some m →
      m (toLowerL (strip (p.title.getD []))) = true →
      has_film_cue (toLowerL (strip (p.title.getD []))) = false →
      decidePost movie_key cfg detectLang p = none) ∧
    (∀ m, cfg.negative_title_regex = some m →
      m (toLowerL (strip (p.title.getD []))) = true →
      has_film_cue (toLowerL (strip (p.title.getD []))) = true →
      ¬(p.created_utc.getD 0 < cfg.start_utc) →
      relevanceReject cfg (toLowerL (strip (p.title.getD []))) (strip (p.selftext.getD [])) = false →
      is_english detectLang (langText (strip (p.title.getD [])) (strip (p.selftext.getD []))) = true →
      (decidePost movie_key cfg detectLang p).isSome = true) ∧
    (cfg.negative_title_regex = none → ∀ tl fc,
      should_exclude_by_negatives tl cfg.negative_title_regex fc = false) := by
  refine ⟨?_, ?_, ?_⟩
  · intro m hm hmatch hfc
    unfold decidePost
    by_cases hb : p.created_utc.getD 0 < cfg.start_utc
    · rw [if_pos hb]
    · rw [if_neg hb]
      by_cases hrel : relevanceReject cfg (toLowerL (strip (p.title.getD []))) (strip (p.selftext.getD [])) = true
      · rw [if_pos hrel]
      · rw [if_neg hrel]
        unfold decideAfterRelevance should_exclude_by_negatives
        rw [hm]
        simp only [hmatch, if_true, hfc, Bool.not_false, if_pos]
  · intro m hm hmatch hfc hb hrel hlang
    unfold decidePost
    rw [if_neg hb, if_neg (by rw [hrel]; exact Bool.false_ne_true)]
    unfold decideAfterRelevance should_exclude_by_negatives
    rw [hm]
    simp only [hmatch, if_true, hfc, Bool.not_true, Bool.false_eq_true, if_false, hlang,
      Bool.not_true, Bool.false_eq_true, if_false, Option.isSome_some]
  · intro hm tl fc
    rw [hm]
    rfl

theorem C5_negative_override_witness :
    decidePost "barbie" barbieTopic (fun _ => none) postNegNoCue = none ∧
    (decidePost "barbie" barbieTopic (fun _ => none) postNegCue).isSome = true :=
  ⟨(C5_negative_override "barbie" barbieTopic (fun _ => none) postNegNoCue).1
      barbieNegMatch rfl (by decide) (by decide),
   (C5_negative_override "barbie" barbieTopic (fun _ => none) postNegCue).2.1
      barbieNegMatch rfl (by decide) (by decide) (by decide) (by decide) (by decide)⟩

/-- C6: the language check tests the title alone when the body is
shorter than 15 characters and the stripped concatenation otherwise;
text of at least 15 stripped characters is judged by the detector's
verdict, shorter text by the ASCII fraction exceeding 0.9; the
all-ASCII 14-character title Barbie trailer passes for every detector,
a short entirely non-ASCII title is rejected for every detector. -/
theorem C6_language_check (detectLang : List Char → Option (List Char)) :
    (∀ title selftext : List Char, selftext.length < MIN_TEXT_LEN →
      langText title selftext = title) ∧
    (∀ title selftext : List Char, ¬(selftext.length < MIN_TEXT_LEN) →
      langText title selftext = strip (title ++ ' ' :: selftext)) ∧
    (∀ (text l : List Char), MIN_TEXT_LEN ≤ (strip text).length →
      detectLang (strip text) = some l →
      is_english detectLang text = (l == "en".data)) ∧
    (∀ text : List Char, (strip text).length < MIN_TEXT_LEN →
      is_english detectLang text = asciiHeuristic (strip text)) ∧
    is_english detectLang "Barbie trailer".data = true ∧
    is_english detectLang "привет".data = false := by
  refine ⟨?_, ?_, ?_, ?_, ?_, ?_⟩
  · intro title selftext h
    unfold langText
    rw [if_pos h]
  · intro title selftext h
    unfold langText
    rw [if_neg h]
  · intro text l hlen hdet
    cases text with
    | nil =>
      have hnil : strip ([] : List Char) = [] := rfl
      rw [hnil] at hlen
      exact absurd hlen (by decide)
    | cons c cs =>
      simp only [is_english, List.isEmpty_cons, Bool.false_eq_true, if_false]
      rw [if_pos hlen, hdet]
  · intro text hlen
    cases text with
    | nil =>
      have hnil : strip ([] : List Char) = [] := rfl
      rw [hnil]
      rfl
    | cons c cs =>
      simp only [is_english, List.isEmpty_cons, Bool.false_eq_true, if_false]
      rw [if_neg (by omega)]
  · rfl
  · rfl

theorem C6_language_check_witness :
    langText "Barbie trailer".data "hello".data = "Barbie trailer".data ∧
    is_english (fun _ => some "fr".data) "this text is long enough to detect".data
      = ("fr".data == "en".data) ∧
    is_english (fun _ => none) "short".data = asciiHeuristic (strip "short".data) ∧
    is_english (fun _ => none) "Barbie trailer".data = true ∧
    is_english (fun _ => none) "привет".data = false :=
  ⟨(C6_language_check (fun _ => none)).1 _ _ (by decide),
   (C6_language_check (fun _ => some "fr".data)).2.2.1 _ _ (by decide) rfl,
   (C6_language_check (fun _ => none)).2.2.2.1 _ (by decide),
   (C6_language_check (fun _ => none)).2.2.2.2.1,
   (C6_language_check (fun _ => none)).2.2.2.2.2⟩

/-- C7: when the tested text meets the minimum length and the detector
fails (raises), the language check returns the ASCII-fraction heuristic
on the same text instead of rejecting outright, and in particular still
returns a verdict. -/
theorem C7_detector_failure_fallback (detectLang : List Char → Option (List Char))
    (text : List Char) (hlen : MIN_TEXT_LEN ≤ (strip text).length)
    (hfail : detectLang (strip text) = none) :
    is_english detectLang text = asciiHeuristic (strip text) := by
  cases text with
  | nil =>
    have hnil : strip ([] : List Char) = [] := rfl
    rw [hnil] at hlen
    exact absurd hlen (by decide)
  | cons c cs =>
    simp only [is_english, List.isEmpty_cons, Bool.false_eq_true, if_false]
    rw [if_pos hlen, hfail]

theorem C7_detector_failure_fallback_witness :
    MIN_TEXT_LEN ≤ (strip "the quick brown fox jumps over".data).length ∧
    is_english (fun _ => none) "the quick brown fox jumps over".data
      = asciiHeuristic (strip "the quick brown fox jumps over".data) :=
  ⟨by decide, C7_detector_failure_fallback (fun _ => none) _ (by decide) rfl⟩

/-! Paging-loop lemmas. -/

theorem fetchGo_pages (start_utc : Int) : ∀ (good : List Page) (acc : List RawPost)
    (rest : List PageResult), (∀ pg ∈ good, pageContinues start_utc pg) →
    fetchGo start_utc acc (good.map PageResult.success ++ PageResult.failure :: rest)
      = acc ++ (good.map Page.children).flatten := by
  intro good
  induction good with
  | nil =>
    intro acc rest _
    simp [fetchGo]
  | cons pg gs ih =>
    intro acc rest h
    obtain ⟨h1, h2, h3⟩ := h pg (List.mem_cons_self _ _)
    have hne : ¬(pg.children.isEmpty = true) := fun hc => h1 (List.isEmpty_iff.mp hc)
    rw [List.map_cons, List.cons_append, fetchGo]
    rw [if_neg hne, if_neg (by rw [h2]; exact Bool.false_ne_true),
      if_neg (by simp [h3])]
    rw [ih (acc ++ pg.children) rest fun q hq => h q (List.mem_cons_of_mem _ hq)]
    rw [List.map_cons, List.flatten_cons, List.append_assoc]

/-- C8: a transport or parse failure on a page request ends that
(source-community, query) fetch: the fetch returns exactly the records
of the previously successful pages, and nothing after the failing
request is ever consulted, so no retry of it happens and the rest of
the run is untouched. -/
theorem C8_failure_truncates_fetch (start_utc : Int) (good : List Page)
    (rest rest2 : List PageResult)
    (h : ∀ pg ∈ good, pageContinues start_utc pg) :
    fetch_subreddit_posts start_utc
        (good.map PageResult.success ++ PageResult.failure :: rest)
      = (good.map Page.children).flatten ∧
    fetch_subreddit_posts start_utc
        (good.map PageResult.success ++ PageResult.failure :: rest)
      = fetch_subreddit_posts start_utc
        (good.map PageResult.success ++ PageResult.failure :: rest2) := by
  constructor
  · simpa using fetchGo_pages start_utc good [] rest h
  · rw [fetch_subreddit_posts, fetch_subreddit_posts,
      fetchGo_pages start_utc good [] rest h, fetchGo_pages start_utc good [] rest2 h]

theorem C8_failure_truncates_fetch_witness :
    (∀ pg ∈ [pageGood], pageContinues 50 pg) ∧
    fetch_subreddit_posts 50
        ([pageGood].map PageResult.success ++ PageResult.failure :: [PageResult.failure])
      = ([pageGood].map Page.children).flatten ∧
    fetch_subreddit_posts 50
        ([pageGood].map PageResult.success ++ PageResult.failure :: [PageResult.failure])
      = fetch_subreddit_posts 50 ([pageGood].map PageResult.success ++ [PageResult.failure]) := by
  refine ⟨by decide, ?_, ?_⟩
  · exact (C8_failure_truncates_fetch 50 [pageGood] [PageResult.failure] [] (by decide)).1
  · exact (C8_failure_truncates_fetch 50 [pageGood] [PageResult.failure] [] (by decide)).2

/-! Coverage-summary lemmas. -/

theorem mem_foldl_dedup : ∀ (l acc : List String) (m : String),
    (m ∈ l.foldl (fun acc m => if m ∈ acc then acc else acc ++ [m]) acc) ↔
      m ∈ acc ∨ m ∈ l := by
  intro l
  induction l with
  | nil => intro acc m; simp
  | cons x xs ih =>
    intro acc m
    rw [List.foldl_cons, ih]
    by_cases hx : x ∈ acc
    · rw [if_pos hx]
      constructor
      · rintro (h | h)
        · exact Or.inl h
        · exact Or.inr (List.mem_cons_of_mem _ h)
      · rintro (h | h)
        · exact Or.inl h
        · rcases List.mem_cons.mp h with rfl | h
          · exact Or.inl hx
          · exact Or.inr h
    · rw [if_neg hx]
      simp [List.mem_append, List.mem_cons, or_assoc]

theorem mem_distinctMovies (ds : List Row) (k : String) :
    k ∈ distinctMovies ds ↔ k ∈ ds.map Row.movie := by
  unfold distinctMovies
  rw [(List.mergeSort_perm _ strLe).mem_iff, mem_foldl_dedup]
  simp

theorem groupRows_movie (ds : List Row) (k : String) :
    ∀ r ∈ groupRows ds k, r.movie = k := by
  intro r hr
  have := List.of_mem_filter hr
  simpa [beq_iff_eq] using this

theorem foldl_max_const (c : Int) : ∀ l : List Int,
    (∀ x ∈ l, x = c) → l.foldl max c = c := by
  intro l
  induction l with
  | nil => intro _; rfl
  | cons x xs ih =>
    intro h
    rw [List.foldl_cons, h x (List.mem_cons_self _ _), max_self]
    exact ih fun y hy => h y (List.mem_cons_of_mem _ hy)

theorem groupDays_eq (now_sec : Int) (starts : String → Int) (ds : List Row) (k : String)
    (hne : groupRows ds k ≠ []) :
    groupDays now_sec starts (groupRows ds k) = days_since_start now_sec (starts k) := by
  unfold groupDays
  cases hg : groupRows ds k with
  | nil => exact absurd hg hne
  | cons r rs =>
    have hr : r.movie = k := groupRows_movie ds k r (hg ▸ List.mem_cons_self _ _)
    rw [List.map_cons, hr]
    apply foldl_max_const
    intro x hx
    rcases List.mem_map.mp hx with ⟨s, hs, rfl⟩
    rw [groupRows_movie ds k s (hg ▸ List.mem_cons_of_mem _ hs)]

/-- C9: for every movie present in a non-empty dataset, the per-topic
summary holds an entry whose count is that movie's row count, whose
days value is max(1, floor((now - start) / 86400)), and whose rate is
the quotient of the two. -/
theorem C9_summary_rates (starts : String → Int) (now_sec : Int) (ds : List Row)
    (k : String) (hne : ds ≠ []) (hk : k ∈ ds.map Row.movie) :
    ({ movie := k, count := (groupRows ds k).length,
       days := days_since_start now_sec (starts k),
       rate := ((groupRows ds k).length : ℚ) / ((days_since_start now_sec (starts k) : Int) : ℚ) }
      : SummaryEntry) ∈ summarize_rates starts now_sec ds := by
  unfold summarize_rates
  rw [if_neg fun hc => hne (List.isEmpty_iff.mp hc)]
  apply List.mem_map.mpr
  refine ⟨k, (mem_distinctMovies ds k).mpr hk, ?_⟩
  have hgne : groupRows ds k ≠ [] := by
    rcases List.mem_map.mp hk with ⟨r, hr, hkr⟩
    intro hnil
    have hmem : r ∈ groupRows ds k := List.mem_filter.mpr ⟨hr, by simp [hkr]⟩
    rw [hnil] at hmem
    exact List.not_mem_nil r hmem
  simp only [groupDays_eq now_sec starts ds k hgne]

theorem C9_summary_rates_witness :
    ({ movie := "oppenheimer", count := (groupRows dsRate "oppenheimer").length,
       days := days_since_start nowRate (startsRate "oppenheimer"),
       rate := ((groupRows dsRate "oppenheimer").length : ℚ) /
         ((days_since_start nowRate (startsRate "oppenheimer") : Int) : ℚ) }
      : SummaryEntry) ∈ summarize_rates startsRate nowRate dsRate ∧
    (groupRows dsRate "oppenheimer").length = 25 ∧
    days_since_start nowRate (startsRate "oppenheimer") = 10 ∧
    ((25 : ℚ) / ((10 : Int) : ℚ) = 5 / 2) :=
  ⟨C9_summary_rates startsRate nowRate dsRate "oppenheimer" (by decide) (by decide),
   by decide, by decide, by norm_num⟩

/-! Lemmas about the within-topic dict-based deduplication. -/

theorem dictInsert_keys_nodup {d : List RawPost} {p : RawPost}
    (hnd : (d.map keyOf).Nodup) : ((dictInsert d p).map keyOf).Nodup := by
  unfold dictInsert
  by_cases hany : (d.any fun q => keyOf q == keyOf p) = true
  · rw [if_pos hany, List.map_map]
    have : (d.map (keyOf ∘ fun q => if keyOf q == keyOf p then p else q)) = d.map keyOf := by
      apply List.map_congr_left
      intro q _
      by_cases hq : (keyOf q == keyOf p) = true
      · simp only [Function.comp_apply, if_pos hq]
        exact (beq_iff_eq.mp hq).symm
      · simp only [Function.comp_apply, if_neg hq]
    rw [this]
    exact hnd
  · rw [if_neg hany, List.map_append]
    rw [List.nodup_append]
    have hfalse : (d.any fun q => keyOf q == keyOf p) = false := by
      simpa using hany
    refine ⟨hnd, List.nodup_singleton _, ?_⟩
    intro a ha hb
    rcases List.mem_map.mp ha with ⟨q, hq, hkq⟩
    rcases List.mem_singleton.mp hb with rfl
    exact List.any_eq_false.mp hfalse q hq (beq_iff_eq.mpr hkq)

theorem filter_map_replace : ∀ (d : List RawPost) (p : RawPost) (k : String),
    (d.map keyOf).Nodup → (∃ q ∈ d, keyOf q = keyOf p) →
    (d.map fun q => if keyOf q == keyOf p then p else q).filter (fun q => keyOf q == k)
      = if keyOf p = k then [p] else d.filter fun q => keyOf q == k := by
  intro d
  induction d with
  | nil =>
    intro p k _ hex
    rcases hex with ⟨q, hq, _⟩
    exact absurd hq (List.not_mem_nil q)
  | cons x ds ih =>
    intro p k hnd hex
    rw [List.map_cons, List.nodup_cons] at hnd
    obtain ⟨hx, hnd'⟩ := hnd
    by_cases hxp : keyOf x = keyOf p
    · have hds : ∀ q ∈ ds, keyOf q ≠ keyOf p := by
        intro q hq he
        exact hx (hxp ▸ he ▸ List.mem_map_of_mem keyOf hq)
      have hmap : ds.map (fun q => if keyOf q == keyOf p then p else q) = ds := by
        have h0 : ds.map (fun q => if keyOf q == keyOf p then p else q) = ds.map id := by
          apply List.map_congr_left
          intro q hq
          rw [if_neg fun hc => hds q hq (beq_iff_eq.mp hc)]
          rfl
        rw [h0, List.map_id]
      rw [List.map_cons, if_pos (beq_iff_eq.mpr hxp), hmap]
      simp only [List.filter_cons]
      by_cases hpk : keyOf p = k
      · rw [if_pos hpk, if_pos (beq_iff_eq.mpr hpk)]
        rw [List.filter_eq_nil_iff.mpr fun q hq hc =>
          hds q hq ((beq_iff_eq.mp hc).trans hpk.symm)]
      · rw [if_neg hpk, if_neg fun hc => hpk (beq_iff_eq.mp hc),
          if_neg fun hc => hpk (hxp ▸ beq_iff_eq.mp hc)]
    · have hex2 : ∃ q ∈ ds, keyOf q = keyOf p := by
        rcases hex with ⟨q, hq, hqp⟩
        rcases List.mem_cons.mp hq with rfl | hq2
        · exact absurd hqp hxp
        · exact ⟨q, hq2, hqp⟩
      rw [List.map_cons, if_neg fun hc => hxp (beq_iff_eq.mp hc)]
      simp only [List.filter_cons]
      rw [ih p k hnd' hex2]
      by_cases hxk : keyOf x = k
      · by_cases hpk : keyOf p = k
        · exact absurd (hpk ▸ hxk : keyOf x = keyOf p) hxp
        · rw [if_pos (beq_iff_eq.mpr hxk), if_pos (beq_iff_eq.mpr hxk), if_neg hpk, if_neg hpk]
      · rw [if_neg fun hc => hxk (beq_iff_eq.mp hc), if_neg fun hc => hxk (beq_iff_eq.mp hc)]

theorem filter_dictInsert (d : List RawPost) (p : RawPost) (k : String)
    (hnd : (d.map keyOf).Nodup) :
    (dictInsert d p).filter (fun q => keyOf q == k)
      = if keyOf p = k then [p] else d.filter fun q => keyOf q == k := by
  unfold dictInsert
  by_cases hany : (d.any fun q => keyOf q == keyOf p) = true
  · rw [if_pos hany]
    rcases List.any_eq_true.mp hany with ⟨q, hq, hqp⟩
    exact filter_map_replace d p k hnd ⟨q, hq, beq_iff_eq.mp hqp⟩
  · rw [if_neg hany, List.filter_append]
    have hfalse : (d.any fun q => keyOf q == keyOf p) = false := by
      simpa using hany
    have hnone := List.any_eq_false.mp hfalse
    simp only [List.filter_cons, List.filter_nil]
    by_cases hpk : keyOf p = k
    · rw [if_pos hpk, if_pos (beq_iff_eq.mpr hpk)]
      rw [List.filter_eq_nil_iff.mpr fun q hq hc =>
        hnone q hq (beq_iff_eq.mpr ((beq_iff_eq.mp hc).trans hpk.symm))]
      rfl
    · rw [if_neg hpk, if_neg fun hc => hpk (beq_iff_eq.mp hc), List.append_nil]

theorem getLast?_cons_of_some {α : Type} : ∀ (l : List α) (p q : α),
    l.getLast? = some q → (p :: l).getLast? = some q := by
  intro l p q h
  cases l with
  | nil => simp at h
  | cons x xs => rw [List.getLast?_cons_cons]; exact h

theorem filter_foldl_dictInsert : ∀ (ps d : List RawPost) (k : String),
    (d.map keyOf).Nodup →
    (ps.foldl dictInsert d).filter (fun q => keyOf q == k)
      = match (ps.filter fun p => keyOf p == k).getLast? with
        | some p => [p]
        | none => d.filter fun q => keyOf q == k := by
  intro ps
  induction ps with
  | nil => intro d k _; rfl
  | cons p ps ih =>
    intro d k hnd
    rw [List.foldl_cons, ih (dictInsert d p) k (dictInsert_keys_nodup hnd)]
    simp only [List.filter_cons]
    by_cases hpk : keyOf p = k
    · rw [if_pos (beq_iff_eq.mpr hpk)]
      cases hlast : (ps.filter fun q => keyOf q == k).getLast? with
      | some q =>
        rw [getLast?_cons_of_some _ p q hlast]
      | none =>
        rw [List.getLast?_eq_none_iff.mp hlast, List.getLast?_singleton,
          filter_dictInsert d p k hnd, if_pos hpk]
    · rw [if_neg fun hc => hpk (beq_iff_eq.mp hc)]
      cases hlast : (ps.filter fun q => keyOf q == k).getLast? with
      | some q => rfl
      | none =>
        rw [filter_dictInsert d p k hnd, if_neg hpk]

theorem mem_dictInsert {d : List RawPost} {p q : RawPost}
    (h : q ∈ dictInsert d p) : q ∈ d ∨ q = p := by
  unfold dictInsert at h
  by_cases hany : (d.any fun r => keyOf r == keyOf p) = true
  · rw [if_pos hany] at h
    rcases List.mem_map.mp h with ⟨x, hx, heq⟩
    by_cases hxp : (keyOf x == keyOf p) = true
    · rw [if_pos hxp] at heq
      exact Or.inr heq.symm
    · rw [if_neg hxp] at heq
      exact Or.inl (heq ▸ hx)
  · rw [if_neg hany] at h
    rcases List.mem_append.mp h with h | h
    · exact Or.inl h
    · exact Or.inr (List.mem_singleton.mp h)

theorem mem_foldl_dictInsert : ∀ (ps d : List RawPost) (q : RawPost),
    q ∈ ps.foldl dictInsert d → q ∈ d ∨ q ∈ ps := by
  intro ps
  induction ps with
  | nil => intro d q h; exact Or.inl h
  | cons p ps ih =>
    intro d q h
    rw [List.foldl_cons] at h
    rcases ih (dictInsert d p) q h with h2 | h2
    · rcases mem_dictInsert h2 with h3 | h3
      · exact Or.inl h3
      · exact Or.inr (h3 ▸ List.mem_cons_self _ _)
    · exact Or.inr (List.mem_cons_of_mem _ h2)

/-- C10: within a topic, every raw post with a missing, None, or empty
id is dropped by the deduplication and never reaches the filter, and
among raw posts sharing an id, exactly the last-seen one (in fetch
order) survives. -/
theorem C10_dedup_by_id (posts : List RawPost) (k : String) (hk : k ≠ "") :
    (∀ q ∈ dedupById posts, q.id ≠ none ∧ q.id ≠ some "") ∧
    (dedupById posts).filter (fun q => keyOf q == k)
      = ((posts.filter fun p => keyOf p == k).getLast?).toList := by
  constructor
  · intro q hq
    unfold dedupById at hq
    rcases mem_foldl_dictInsert _ [] q hq with h | h
    · exact absurd h (List.not_mem_nil q)
    · have hkey := List.of_mem_filter h
      cases hid : q.id with
      | none =>
        exfalso
        rw [keyOf, hid] at hkey
        exact absurd hkey (by decide)
      | some s =>
        constructor
        · simp
        · intro hc
          have hs : s = "" := Option.some_injective _ hc
          rw [keyOf, hid, hs] at hkey
          exact absurd hkey (by decide)
  · unfold dedupById
    rw [filter_foldl_dictInsert _ [] k (by simp)]
    have hff : (posts.filter fun p => !(keyOf p).isEmpty).filter (fun p => keyOf p == k)
        = posts.filter fun p => keyOf p == k := by
      rw [List.filter_filter]
      apply List.filter_congr
      intro p _
      by_cases hp : (keyOf p == k) = true
      · have hempty : (keyOf p).isEmpty = false := by
          rw [beq_iff_eq.mp hp, Bool.eq_false_iff]
          intro hc
          exact hk ((String.isEmpty_iff k).mp hc)
        rw [hp, hempty]
        rfl
      · rw [Bool.eq_false_iff.mpr hp]
        rfl
    rw [hff]
    cases hlast : (posts.filter fun p => keyOf p == k).getLast? with
    | some q => rfl
    | none => rfl

theorem C10_dedup_by_id_witness :
    ("x" : String) ≠ "" ∧
    (∀ q ∈ dedupById postsDup, q.id ≠ none ∧ q.id ≠ some "") ∧
    (dedupById postsDup).filter (fun q => keyOf q == "x")
      = ((postsDup.filter fun p => keyOf p == "x").getLast?).toList :=
  ⟨by decide,
   (C10_dedup_by_id postsDup "x" (by decide)).1,
   (C10_dedup_by_id postsDup "x" (by decide)).2⟩
